import Mathlib

/-!
Verification of the `xyflow-anywidget` repository: a shallow embedding of the
key-name codec (`src/xyflow/data_types.py`), the Node/Edge descriptors and
their serialization, the widget update operations (`src/xyflow/widget.py`),
and the networkx importer (`src/xyflow/nx.py`), together with theorems
settling the specification claims.

Conventions of the embedding:
* Python strings are `String` (lists of `Char`); the single-character
  operations `str.isupper` / `str.upper` / `str.lower` are modelled for the
  ASCII range (identifier keys in this code base are ASCII).
* Python dicts are insertion-ordered association lists `List (String × PyVal)`
  whose keys are distinct; `pyDictInsert` models `d[k] = v`, `pyDictMerge a b`
  models `{**a, **b}` / `a.update(b)`.
* Python numbers (int and float) are modelled by `ℚ`; the only arithmetic the
  code performs on them (`float(x) * scale`) is exact.
* Code that can raise is modelled in `Except String`; a raised exception
  produces `Except.error`, in which case no state is produced — mirroring the
  Python methods whose only state write is the final attribute assignment.
-/

/-- Model of Python `c.isupper()` for a single ASCII character. -/
def pyIsUpper (c : Char) : Bool :=
  65 ≤ c.toNat && c.toNat ≤ 90

/-- Model of Python `c.upper()` for a single ASCII character. -/
def pyUpper (c : Char) : Char :=
  if 97 ≤ c.toNat && c.toNat ≤ 122 then Char.ofNat (c.toNat - 32) else c

/-- Model of Python `c.lower()` for a single ASCII character. -/
def pyLower (c : Char) : Char :=
  if 65 ≤ c.toNat && c.toNat ≤ 90 then Char.ofNat (c.toNat + 32) else c

/-- The character-by-character loop of `_snake_case_to_camel_case`
(`data_types.py`, lines 332-344), for all positions `i ≥ 1`; the `Bool`
argument is the `capitalize` flag. -/
def s2cAux : Bool → List Char → List Char
  | _, [] => []
  | capitalize, c :: rest =>
    if c = '_' then s2cAux true rest
    else (if capitalize then pyUpper c else c) :: s2cAux false rest

/-- `_snake_case_to_camel_case` from `data_types.py` (lines 332-344): the
first character is emitted unchanged, afterwards each underscore is dropped
and sets the `capitalize` flag for the next character. -/
def _snake_case_to_camel_case (name : String) : String :=
  match name.data with
  | [] => ""
  | c :: rest => String.mk (c :: s2cAux false rest)

/-- The character-by-character loop of `_camel_case_to_snake_case`
(`data_types.py`, lines 347-357), for all positions `i ≥ 1`. -/
def c2sAux : List Char → List Char
  | [] => []
  | c :: rest =>
    if pyIsUpper c then '_' :: pyLower c :: c2sAux rest
    else c :: c2sAux rest

/-- `_camel_case_to_snake_case` from `data_types.py` (lines 347-357): the
first character is emitted unchanged, afterwards each uppercase character is
replaced by an underscore followed by its lowercase form. -/
def _camel_case_to_snake_case (name : String) : String :=
  match name.data with
  | [] => ""
  | c :: rest => String.mk (c :: c2sAux rest)

/-- A lower-snake-case word character: a lowercase ASCII letter or digit. -/
def isSnakeWordChar (c : Char) : Bool :=
  (97 ≤ c.toNat && c.toNat ≤ 122) || (48 ≤ c.toNat && c.toNat ≤ 57)

/-- Validity of the tail (all positions `i ≥ 1`) of a lower-snake-case
identifier: word characters, with every underscore single, internal, and
followed by a lowercase letter (not a digit). -/
def snakeTail : List Char → Bool
  | [] => true
  | c :: rest =>
    if c = '_' then
      match rest with
      | [] => false
      | d :: rest' => (97 ≤ d.toNat && d.toNat ≤ 122) && snakeTail rest'
    else isSnakeWordChar c && snakeTail rest

/-- A valid lower-snake-case identifier: nonempty, made of words of lowercase
letters and digits separated by single underscores, with no digit immediately
following an underscore. -/
def validSnake (s : String) : Bool :=
  match s.data with
  | [] => false
  | c :: rest => isSnakeWordChar c && snakeTail rest

/-- A valid camelCase identifier: ASCII letters and digits only (in
particular it contains no underscore). -/
def validCamel (s : String) : Bool :=
  s.data.all fun c =>
    (65 ≤ c.toNat && c.toNat ≤ 90) || (97 ≤ c.toNat && c.toNat ≤ 122) ||
      (48 ≤ c.toNat && c.toNat ≤ 57)

theorem char_toNat_ofNat_valid {n : Nat} (h : n < 55296) :
    (Char.ofNat n).toNat = n := by
  rw [Char.ofNat, dif_pos (Or.inl h)]
  simp [Char.ofNatAux, Char.toNat, UInt32.toNat]

theorem pyUpper_eq_of_lower {c : Char} (h : 97 ≤ c.toNat ∧ c.toNat ≤ 122) :
    pyUpper c = Char.ofNat (c.toNat - 32) := by
  simp only [pyUpper]
  rw [if_pos]
  simp only [Bool.and_eq_true, decide_eq_true_eq]
  exact h

theorem pyIsUpper_pyUpper {c : Char} (h : 97 ≤ c.toNat ∧ c.toNat ≤ 122) :
    pyIsUpper (pyUpper c) = true := by
  have hv : (Char.ofNat (c.toNat - 32)).toNat = c.toNat - 32 :=
    char_toNat_ofNat_valid (by omega)
  rw [pyUpper_eq_of_lower h]
  simp only [pyIsUpper, hv, Bool.and_eq_true, decide_eq_true_eq]
  omega

theorem pyLower_pyUpper {c : Char} (h : 97 ≤ c.toNat ∧ c.toNat ≤ 122) :
    pyLower (pyUpper c) = c := by
  have hv : (Char.ofNat (c.toNat - 32)).toNat = c.toNat - 32 :=
    char_toNat_ofNat_valid (by omega)
  rw [pyUpper_eq_of_lower h]
  simp only [pyLower, hv]
  rw [if_pos]
  · have h32 : c.toNat - 32 + 32 = c.toNat := by omega
    rw [h32, Char.ofNat_toNat]
  · simp only [hv, Bool.and_eq_true, decide_eq_true_eq]
    omega

theorem pyIsUpper_false_of_wordChar {c : Char} (h : isSnakeWordChar c = true) :
    pyIsUpper c = false := by
  simp only [isSnakeWordChar, Bool.or_eq_true, Bool.and_eq_true,
    decide_eq_true_eq] at h
  simp only [pyIsUpper, Bool.and_eq_false_iff, decide_eq_false_iff_not]
  rcases h with h | h
  · exact Or.inr (by omega)
  · exact Or.inl (by omega)

/-- A camelCase character: ASCII letter or digit. -/
def isCamelChar (c : Char) : Bool :=
  (65 ≤ c.toNat && c.toNat ≤ 90) || (97 ≤ c.toNat && c.toNat ≤ 122) ||
    (48 ≤ c.toNat && c.toNat ≤ 57)

theorem pyLower_eq_of_upper {c : Char} (h : 65 ≤ c.toNat ∧ c.toNat ≤ 90) :
    pyLower c = Char.ofNat (c.toNat + 32) := by
  simp only [pyLower]
  rw [if_pos]
  simp only [Bool.and_eq_true, decide_eq_true_eq]
  exact h

theorem pyUpper_pyLower {c : Char} (h : 65 ≤ c.toNat ∧ c.toNat ≤ 90) :
    pyUpper (pyLower c) = c := by
  have hv : (Char.ofNat (c.toNat + 32)).toNat = c.toNat + 32 :=
    char_toNat_ofNat_valid (by omega)
  rw [pyLower_eq_of_upper h]
  simp only [pyUpper, hv]
  rw [if_pos]
  · have h32 : c.toNat + 32 - 32 = c.toNat := by omega
    rw [h32, Char.ofNat_toNat]
  · simp only [Bool.and_eq_true, decide_eq_true_eq]
    omega

theorem ne_underscore_of_toNat_ne {c : Char} (h : c.toNat ≠ 95) : c ≠ '_' := by
  intro he
  exact h (by rw [he]; rfl)

theorem pyLower_ne_underscore {c : Char} (h : 65 ≤ c.toNat ∧ c.toNat ≤ 90) :
    pyLower c ≠ '_' := by
  have hv : (Char.ofNat (c.toNat + 32)).toNat = c.toNat + 32 :=
    char_toNat_ofNat_valid (by omega)
  rw [pyLower_eq_of_upper h]
  exact ne_underscore_of_toNat_ne (by omega)

theorem pyIsUpper_iff {c : Char} :
    pyIsUpper c = true ↔ 65 ≤ c.toNat ∧ c.toNat ≤ 90 := by
  simp [pyIsUpper]

/-- Snake-to-camel-to-snake round trip on the tail of a valid
lower-snake-case identifier (the two conjuncts track whether an underscore
was just consumed). -/
theorem c2s_s2c_of_snakeTail (t : List Char) :
    (snakeTail t = true → c2sAux (s2cAux false t) = t) ∧
      (snakeTail ('_' :: t) = true → c2sAux (s2cAux true t) = '_' :: t) := by
  induction t with
  | nil =>
    constructor
    · intro _; rfl
    · intro h; simp [snakeTail] at h
  | cons c rest ih =>
    constructor
    · intro h
      by_cases hc : c = '_'
      · subst hc
        have h2 := ih.2 h
        simpa [s2cAux] using h2
      · have h' : isSnakeWordChar c = true ∧ snakeTail rest = true := by
          rw [snakeTail.eq_def] at h
          simp only [if_neg hc] at h
          simpa using h
        simp only [s2cAux, if_neg hc, if_neg (Bool.false_ne_true), c2sAux,
          pyIsUpper_false_of_wordChar h'.1, ite_false]
        rw [ih.1 h'.2]
    · intro h
      have h' : (97 ≤ c.toNat ∧ c.toNat ≤ 122) ∧ snakeTail rest = true := by
        rw [snakeTail.eq_def] at h
        simpa using h
      have hc : c ≠ '_' := ne_underscore_of_toNat_ne (by omega)
      simp only [s2cAux, if_neg hc, if_pos rfl, c2sAux,
        pyIsUpper_pyUpper h'.1, ite_true]
      rw [pyLower_pyUpper h'.1, ih.1 h'.2]

/-- Camel-to-snake-to-camel round trip on the tail of a string of ASCII
letters and digits. -/
theorem camelChar_cases {c : Char} (h : isCamelChar c = true) :
    (65 ≤ c.toNat ∧ c.toNat ≤ 90) ∨ (97 ≤ c.toNat ∧ c.toNat ≤ 122) ∨
      (48 ≤ c.toNat ∧ c.toNat ≤ 57) := by
  simp only [isCamelChar, Bool.or_eq_true, Bool.and_eq_true,
    decide_eq_true_eq] at h
  tauto

theorem s2c_c2s_of_camelTail (t : List Char) (h : t.all isCamelChar = true) :
    s2cAux false (c2sAux t) = t := by
  induction t with
  | nil => rfl
  | cons c rest ih =>
    have hcam1 : isCamelChar c = true := by
      simp only [List.all_cons, Bool.and_eq_true] at h
      exact h.1
    have hcam2 : rest.all isCamelChar = true := by
      simp only [List.all_cons, Bool.and_eq_true] at h
      exact h.2
    have hrec := ih hcam2
    by_cases hu : pyIsUpper c = true
    · have hb : 65 ≤ c.toNat ∧ c.toNat ≤ 90 := pyIsUpper_iff.mp hu
      simp only [c2sAux, hu, ite_true, s2cAux, if_pos rfl,
        if_neg (pyLower_ne_underscore hb), ite_true]
      rw [pyUpper_pyLower hb, hrec]
    · have hne : c ≠ '_' := by
        apply ne_underscore_of_toNat_ne
        rcases camelChar_cases hcam1 with h1 | h1 | h1 <;> omega
      simp only [c2sAux, hu, ite_false, s2cAux, if_neg hne,
        if_neg (Bool.false_ne_true)]
      rw [hrec]

/-- C1: for every valid lower-snake-case string `s` (words of lowercase
letters separated by single underscores, no digit immediately after an
underscore), `_camel_case_to_snake_case (_snake_case_to_camel_case s) = s`;
and for every valid camelCase string `t`,
`_snake_case_to_camel_case (_camel_case_to_snake_case t) = t`. -/
theorem C1_case_codec_roundtrip (s t : String)
    (hs : validSnake s = true) (ht : validCamel t = true) :
    _camel_case_to_snake_case (_snake_case_to_camel_case s) = s ∧
      _snake_case_to_camel_case (_camel_case_to_snake_case t) = t := by
  constructor
  · obtain ⟨sd⟩ := s
    match sd, hs with
    | c :: rest, hs =>
      have hs' : isSnakeWordChar c = true ∧ snakeTail rest = true := by
        simpa [validSnake] using hs
      show _camel_case_to_snake_case (String.mk (c :: s2cAux false rest)) =
        String.mk (c :: rest)
      simp only [_camel_case_to_snake_case]
      rw [(c2s_s2c_of_snakeTail rest).1 hs'.2]
  · obtain ⟨td⟩ := t
    match td, ht with
    | [], _ => rfl
    | c :: rest, ht =>
      have ht' : rest.all isCamelChar = true := by
        have : (c :: rest).all isCamelChar = true := by
          simpa [validCamel, isCamelChar] using ht
        simp only [List.all_cons, Bool.and_eq_true] at this
        exact this.2
      show _snake_case_to_camel_case (String.mk (c :: c2sAux rest)) =
        String.mk (c :: rest)
      simp only [_snake_case_to_camel_case]
      rw [s2c_c2s_of_camelTail rest ht']

/-- Witness for C1 at the concrete strings "fit_view" and "fitView". -/
theorem C1_case_codec_roundtrip_witness :
    (validSnake "fit_view" = true ∧ validCamel "fitView" = true) ∧
      (_camel_case_to_snake_case (_snake_case_to_camel_case "fit_view") =
          "fit_view" ∧
        _snake_case_to_camel_case (_camel_case_to_snake_case "fitView") =
          "fitView") :=
  ⟨⟨by decide, by decide⟩,
    C1_case_codec_roundtrip "fit_view" "fitView" (by decide) (by decide)⟩

/-- C10: `_snake_case_to_camel_case` drops every underscore after the first
character regardless of what follows, so it is not injective — `"a_b"` and
`"a__b"` collide on `"aB"`, `"a_1"` and `"a1"` collide on `"a1"`, `"a_"`
maps to `"a"` — and for the colliding inputs `"a__b"`, `"a_1"` and `"a_"`
the snake-to-camel-to-snake round trip is not the identity. -/
theorem C10_snake_to_camel_not_injective :
    _snake_case_to_camel_case "a_b" = "aB" ∧
      _snake_case_to_camel_case "a__b" = "aB" ∧
      ("a_b" : String) ≠ "a__b" ∧
      _snake_case_to_camel_case "a_1" = "a1" ∧
      _snake_case_to_camel_case "a1" = "a1" ∧
      ("a_1" : String) ≠ "a1" ∧
      _snake_case_to_camel_case "a_" = "a" ∧
      _camel_case_to_snake_case (_snake_case_to_camel_case "a__b") ≠ "a__b" ∧
      _camel_case_to_snake_case (_snake_case_to_camel_case "a_1") ≠ "a_1" ∧
      _camel_case_to_snake_case (_snake_case_to_camel_case "a_") ≠ "a_" := by
  refine ⟨by decide, by decide, by decide, by decide, by decide, by decide,
    by decide, by decide, by decide, by decide⟩


/-- A Python (JSON-like) value: string, number (int and float, modelled by
`ℚ`), boolean, `None`, list, or dict (insertion-ordered association list). -/
inductive PyVal where
  | str (s : String)
  | num (q : ℚ)
  | bool (b : Bool)
  | none
  | list (xs : List PyVal)
  | dict (entries : List (String × PyVal))

/-- A Python dict with string keys: an insertion-ordered association list.
Python guarantees the keys are pairwise distinct (`pyDictNodup`). -/
abbrev PyDict : Type := List (String × PyVal)

/-- Membership test `k in d` on a Python dict. -/
def containsKey : PyDict → String → Bool
  | [], _ => false
  | p :: rest, k => (p.1 == k) || containsKey rest k

/-- Reading `d[k]` (resp. `d.get(k)`): the value at the first entry whose
key is `k`. -/
def pyDictGet : PyDict → String → Option PyVal
  | [], _ => Option.none
  | p :: rest, k => if p.1 == k then some p.2 else pyDictGet rest k

/-- `d[k] = v` on a Python dict: replaces the value at an existing key in
place (keeping its position) and otherwise appends the new entry at the
end. -/
def pyDictInsert : PyDict → String → PyVal → PyDict
  | [], k, v => [(k, v)]
  | p :: rest, k, v =>
    if p.1 == k then (k, v) :: rest else p :: pyDictInsert rest k v

/-- `{**a, **b}` / `a.update(b)` on Python dicts: entries of `b` are written
into `a` one by one, `b` winning for each key both define. -/
def pyDictMerge (a b : PyDict) : PyDict :=
  b.foldl (fun acc p => pyDictInsert acc p.1 p.2) a

/-- `d.pop(k, default)`'s effect on the dict: the entry at `k` is removed. -/
def pyDictRemove (d : PyDict) (k : String) : PyDict :=
  d.filter fun p => p.1 != k

/-- Distinctness of the keys of a dict (an invariant of Python dicts). -/
def pyDictNodup (d : PyDict) : Prop :=
  (d.map Prod.fst).Nodup

theorem get_insert_self (d : PyDict) (k : String) (v : PyVal) :
    pyDictGet (pyDictInsert d k v) k = some v := by
  induction d with
  | nil => simp [pyDictInsert, pyDictGet]
  | cons p rest ih =>
    by_cases hp : p.1 == k
    · simp [pyDictInsert, hp, pyDictGet]
    · simp [pyDictInsert, hp, pyDictGet, ih]

theorem get_insert_ne (d : PyDict) (k k' : String) (v : PyVal)
    (h : k' ≠ k) : pyDictGet (pyDictInsert d k v) k' = pyDictGet d k' := by
  induction d with
  | nil => simp [pyDictInsert, pyDictGet, h, Ne.symm h]
  | cons p rest ih =>
    by_cases hp : p.1 == k
    · have hp' : p.1 = k := by simpa using hp
      simp only [pyDictInsert, if_pos hp, pyDictGet]
      rw [if_neg (by simpa using h.symm), if_neg (by rw [hp']; simpa using h.symm)]
    · simp only [pyDictInsert, if_neg hp, pyDictGet]
      by_cases hk : p.1 == k'
      · rw [if_pos hk, if_pos hk]
      · rw [if_neg hk, if_neg hk]
        exact ih

theorem contains_insert_self (d : PyDict) (k : String) (v : PyVal) :
    containsKey (pyDictInsert d k v) k = true := by
  induction d with
  | nil => simp [pyDictInsert, containsKey]
  | cons p rest ih =>
    by_cases hp : p.1 == k
    · simp [pyDictInsert, hp, containsKey]
    · simp [pyDictInsert, hp, containsKey, ih]

theorem contains_insert_mono (d : PyDict) (k k' : String) (v : PyVal)
    (h : containsKey d k' = true) :
    containsKey (pyDictInsert d k v) k' = true := by
  induction d with
  | nil => simp [containsKey] at h
  | cons p rest ih =>
    simp only [containsKey, Bool.or_eq_true] at h
    by_cases hp : p.1 == k
    · have hp' : p.1 = k := by simpa using hp
      rcases h with h | h
      · simp only [pyDictInsert, if_pos hp, containsKey, Bool.or_eq_true]
        left
        rw [← hp']
        exact h
      · simp [pyDictInsert, hp, containsKey, h]
    · rcases h with h | h
      · simp [pyDictInsert, hp, containsKey, h]
      · simp [pyDictInsert, hp, containsKey, ih (by simp [h])]

theorem contains_merge_left (a b : PyDict) (k : String)
    (h : containsKey a k = true) : containsKey (pyDictMerge a b) k = true := by
  induction b generalizing a with
  | nil => exact h
  | cons p rest ih =>
    show containsKey (pyDictMerge (pyDictInsert a p.1 p.2) rest) k = true
    exact ih _ (contains_insert_mono a p.1 k p.2 h)

theorem contains_eq_false_iff (d : PyDict) (k : String) :
    containsKey d k = false ↔ k ∉ d.map Prod.fst := by
  induction d with
  | nil => simp [containsKey]
  | cons p rest ih =>
    simp only [containsKey, Bool.or_eq_false_iff, List.map_cons,
      List.mem_cons, beq_eq_false_iff_ne, ne_eq, ih]
    constructor
    · rintro ⟨h1, h2⟩ h
      rcases h with h | h
      · exact h1 h.symm
      · exact h2 h
    · intro h
      exact ⟨fun he => h (Or.inl he.symm), fun hm => h (Or.inr hm)⟩

theorem get_eq_none_of_not_contains (d : PyDict) (k : String)
    (h : containsKey d k = false) : pyDictGet d k = Option.none := by
  induction d with
  | nil => rfl
  | cons p rest ih =>
    simp only [containsKey, Bool.or_eq_false_iff] at h
    simp only [pyDictGet, if_neg (by simp [h.1] : ¬(p.1 == k) = true)]
    exact ih h.2

theorem get_merge_of_not_contains (a b : PyDict) (k : String)
    (h : containsKey b k = false) :
    pyDictGet (pyDictMerge a b) k = pyDictGet a k := by
  induction b generalizing a with
  | nil => rfl
  | cons p rest ih =>
    simp only [containsKey, Bool.or_eq_false_iff] at h
    show pyDictGet (pyDictMerge (pyDictInsert a p.1 p.2) rest) k = pyDictGet a k
    rw [ih _ h.2, get_insert_ne]
    intro he
    rw [he] at h
    simp at h

theorem get_merge_of_get (a b : PyDict) (k : String) (v : PyVal)
    (hnd : pyDictNodup b) (h : pyDictGet b k = some v) :
    pyDictGet (pyDictMerge a b) k = some v := by
  induction b generalizing a with
  | nil => simp [pyDictGet] at h
  | cons p rest ih =>
    have hnd' : pyDictNodup rest ∧ p.1 ∉ rest.map Prod.fst := by
      simp only [pyDictNodup, List.map_cons, List.nodup_cons] at hnd
      exact ⟨hnd.2, hnd.1⟩
    show pyDictGet (pyDictMerge (pyDictInsert a p.1 p.2) rest) k = some v
    by_cases hp : p.1 == k
    · have hp' : p.1 = k := by simpa using hp
      simp only [pyDictGet, if_pos hp] at h
      rw [get_merge_of_not_contains]
      · rw [hp', get_insert_self, h]
      · rw [contains_eq_false_iff, ← hp']
        exact hnd'.2
    · simp only [pyDictGet, if_neg hp] at h
      exact ih _ hnd'.1 h

theorem contains_remove_self (d : PyDict) (k : String) :
    containsKey (pyDictRemove d k) k = false := by
  induction d with
  | nil => rfl
  | cons p rest ih =>
    simp only [pyDictRemove, List.filter_cons]
    by_cases hp : (p.1 != k) = true
    · rw [if_pos hp]
      simp only [containsKey, Bool.or_eq_false_iff]
      exact ⟨by simpa using hp, ih⟩
    · rw [if_neg hp]
      exact ih

theorem get_remove_ne (d : PyDict) (k k' : String) (h : k ≠ k') :
    pyDictGet (pyDictRemove d k') k = pyDictGet d k := by
  induction d with
  | nil => rfl
  | cons p rest ih =>
    simp only [pyDictRemove, List.filter_cons]
    by_cases hp : (p.1 != k') = true
    · rw [if_pos hp]
      simp only [pyDictGet]
      by_cases hk : p.1 == k
      · rw [if_pos hk, if_pos hk]
      · rw [if_neg hk, if_neg hk]
        exact ih
    · rw [if_neg hp]
      have hp' : p.1 = k' := by simpa using hp
      have hk : (p.1 == k) = false := by
        rw [hp']
        exact beq_eq_false_iff_ne.mpr (Ne.symm h)
      rw [show pyDictGet (p :: rest) k = pyDictGet rest k by
        simp [pyDictGet, hk]]
      exact ih

theorem contains_remove_imp (d : PyDict) (k k' : String)
    (h : containsKey (pyDictRemove d k') k = true) : containsKey d k = true := by
  induction d with
  | nil => exact h
  | cons p rest ih =>
    simp only [pyDictRemove, List.filter_cons] at h
    by_cases hp : (p.1 != k') = true
    · rw [if_pos hp] at h
      simp only [containsKey, Bool.or_eq_true] at h ⊢
      rcases h with h | h
      · exact Or.inl h
      · exact Or.inr (ih h)
    · rw [if_neg hp] at h
      simp only [containsKey, Bool.or_eq_true]
      exact Or.inr (ih h)

theorem mem_map_fst_remove {d : PyDict} {k k' : String}
    (h : k' ∈ (pyDictRemove d k).map Prod.fst) : k' ∈ d.map Prod.fst := by
  induction d with
  | nil => exact h
  | cons p rest ih =>
    simp only [pyDictRemove, List.filter_cons] at h
    by_cases hp : (p.1 != k) = true
    · rw [if_pos hp] at h
      simp only [List.map_cons, List.mem_cons] at h ⊢
      rcases h with h | h
      · exact Or.inl h
      · exact Or.inr (ih h)
    · rw [if_neg hp] at h
      simp only [List.map_cons, List.mem_cons]
      exact Or.inr (ih h)

theorem nodup_remove (d : PyDict) (k : String) (h : pyDictNodup d) :
    pyDictNodup (pyDictRemove d k) := by
  induction d with
  | nil => exact h
  | cons p rest ih =>
    simp only [pyDictNodup, List.map_cons, List.nodup_cons] at h
    simp only [pyDictRemove, List.filter_cons]
    by_cases hp : (p.1 != k) = true
    · rw [if_pos hp]
      simp only [pyDictNodup, List.map_cons, List.nodup_cons]
      exact ⟨fun hm => h.1 (mem_map_fst_remove hm), ih h.2⟩
    · rw [if_neg hp]
      exact ih h.2

/-- `XYHandle` dataclass from `data_types.py` (lines 50-58): five optional
fields. `Option.none` models an unset (Python `None`) field. -/
structure XYHandle where
  id : Option PyVal := Option.none
  position : Option PyVal := Option.none
  type : Option PyVal := Option.none
  style : Option PyVal := Option.none
  is_connectable : Option PyVal := Option.none

/-- `dataclasses.asdict` on an `XYHandle` (used by `Node.to_dict` for the
`handles` field): all five fields appear, unset ones as Python `None`. -/
def xyHandleAsDict (h : XYHandle) : PyDict :=
  [("id", h.id.getD PyVal.none), ("position", h.position.getD PyVal.none),
    ("type", h.type.getD PyVal.none), ("style", h.style.getD PyVal.none),
    ("is_connectable", h.is_connectable.getD PyVal.none)]

/-- A `Node.position`: either an `(x, y)` pair or an `{x, y}` mapping. -/
inductive NodePosition where
  | tup (x y : ℚ)
  | map (d : PyDict)

/-- The `Node` dataclass from `data_types.py` (lines 61-114), fields in
declaration order. `id` and `position` are the only mandatory fields;
optional fields are `Option PyVal` (`Option.none` = Python `None`), the
`data` payload and the `extra` escape hatch default to empty dicts. -/
structure Node where
  id : String
  position : NodePosition
  data : PyDict := []
  type : Option PyVal := Option.none
  source_position : Option PyVal := Option.none
  target_position : Option PyVal := Option.none
  hidden : Option PyVal := Option.none
  selected : Option PyVal := Option.none
  dragging : Option PyVal := Option.none
  draggable : Option PyVal := Option.none
  selectable : Option PyVal := Option.none
  connectable : Option PyVal := Option.none
  deletable : Option PyVal := Option.none
  drag_handle : Option PyVal := Option.none
  width : Option PyVal := Option.none
  height : Option PyVal := Option.none
  initial_width : Option PyVal := Option.none
  initial_height : Option PyVal := Option.none
  parent_id : Option PyVal := Option.none
  z_index : Option PyVal := Option.none
  extent : Option PyVal := Option.none
  expand_parent : Option PyVal := Option.none
  origin : Option PyVal := Option.none
  handles : Option (List XYHandle) := Option.none
  aria_label : Option PyVal := Option.none
  aria_role_description : Option PyVal := Option.none
  measured : Option PyVal := Option.none
  extra : PyDict := []

/-- The `Edge` dataclass from `data_types.py` (lines 140-189), fields in
declaration order. `id`, `source`, `target` are mandatory. -/
structure Edge where
  id : String
  source : String
  target : String
  type : Option PyVal := Option.none
  data : PyDict := []
  animated : Option PyVal := Option.none
  hidden : Option PyVal := Option.none
  selected : Option PyVal := Option.none
  deletable : Option PyVal := Option.none
  selectable : Option PyVal := Option.none
  focusable : Option PyVal := Option.none
  z_index : Option PyVal := Option.none
  label : Option PyVal := Option.none
  label_style : Option PyVal := Option.none
  label_show_bg : Option PyVal := Option.none
  label_bg_style : Option PyVal := Option.none
  label_bg_padding : Option PyVal := Option.none
  label_bg_border_radius : Option PyVal := Option.none
  style : Option PyVal := Option.none
  class_name : Option PyVal := Option.none
  marker_start : Option PyVal := Option.none
  marker_end : Option PyVal := Option.none
  path_options : Option PyVal := Option.none
  interaction_width : Option PyVal := Option.none
  source_handle_id : Option PyVal := Option.none
  target_handle_id : Option PyVal := Option.none
  reconnectable : Option PyVal := Option.none
  aria_label : Option PyVal := Option.none
  aria_role : Option PyVal := Option.none
  extra : PyDict := []

/-- The `position` attribute as `asdict` sees it (only used under an
`exclude`; kept for faithfulness of the field list). -/
def NodePosition.asVal : NodePosition → PyVal
  | NodePosition.tup x y => PyVal.list [PyVal.num x, PyVal.num y]
  | NodePosition.map d => PyVal.dict d

/-- The `(field name, value-or-None)` list of a `Node`, in dataclass
declaration order, as iterated by `_dataclass_to_dict`. -/
def Node.fieldList (n : Node) : List (String × Option PyVal) :=
  [("id", some (PyVal.str n.id)),
    ("position", some n.position.asVal),
    ("data", some (PyVal.dict n.data)),
    ("type", n.type),
    ("source_position", n.source_position),
    ("target_position", n.target_position),
    ("hidden", n.hidden),
    ("selected", n.selected),
    ("dragging", n.dragging),
    ("draggable", n.draggable),
    ("selectable", n.selectable),
    ("connectable", n.connectable),
    ("deletable", n.deletable),
    ("drag_handle", n.drag_handle),
    ("width", n.width),
    ("height", n.height),
    ("initial_width", n.initial_width),
    ("initial_height", n.initial_height),
    ("parent_id", n.parent_id),
    ("z_index", n.z_index),
    ("extent", n.extent),
    ("expand_parent", n.expand_parent),
    ("origin", n.origin),
    ("handles",
      n.handles.map fun hs => PyVal.list (hs.map fun h => PyVal.dict (xyHandleAsDict h))),
    ("aria_label", n.aria_label),
    ("aria_role_description", n.aria_role_description),
    ("measured", n.measured),
    ("extra", some (PyVal.dict n.extra))]

/-- The `(field name, value-or-None)` list of an `Edge`, in dataclass
declaration order. -/
def Edge.fieldList (e : Edge) : List (String × Option PyVal) :=
  [("id", some (PyVal.str e.id)),
    ("source", some (PyVal.str e.source)),
    ("target", some (PyVal.str e.target)),
    ("type", e.type),
    ("data", some (PyVal.dict e.data)),
    ("animated", e.animated),
    ("hidden", e.hidden),
    ("selected", e.selected),
    ("deletable", e.deletable),
    ("selectable", e.selectable),
    ("focusable", e.focusable),
    ("z_index", e.z_index),
    ("label", e.label),
    ("label_style", e.label_style),
    ("label_show_bg", e.label_show_bg),
    ("label_bg_style", e.label_bg_style),
    ("label_bg_padding", e.label_bg_padding),
    ("label_bg_border_radius", e.label_bg_border_radius),
    ("style", e.style),
    ("class_name", e.class_name),
    ("marker_start", e.marker_start),
    ("marker_end", e.marker_end),
    ("path_options", e.path_options),
    ("interaction_width", e.interaction_width),
    ("source_handle_id", e.source_handle_id),
    ("target_handle_id", e.target_handle_id),
    ("reconnectable", e.reconnectable),
    ("aria_label", e.aria_label),
    ("aria_role", e.aria_role),
    ("extra", some (PyVal.dict e.extra))]

/-- `_dataclass_to_dict` from `data_types.py` (lines 318-329): iterate the
fields in declaration order, skip excluded names and `None` values, and
store each remaining value under its camelCased name. -/
def dcStep (exclude : List String) (dct : PyDict)
    (kv : String × Option PyVal) : PyDict :=
  if exclude.contains kv.1 then dct
  else
    match kv.2 with
    | Option.none => dct
    | some v => pyDictInsert dct (_snake_case_to_camel_case kv.1) v

def _dataclass_to_dict (fields : List (String × Option PyVal))
    (exclude : List String) : PyDict :=
  fields.foldl (dcStep exclude) []

/-- The position normalization in `Node.to_dict`: an `(x, y)` pair becomes
an `{x, y}` mapping, a mapping is passed through unchanged. -/
def nodePositionVal (n : Node) : PyVal :=
  match n.position with
  | NodePosition.tup x y => PyVal.dict [("x", PyVal.num x), ("y", PyVal.num y)]
  | NodePosition.map d => PyVal.dict d

/-- The handles step of `Node.to_dict`: when handles are present, store
them (as `asdict` dicts) under the key "handles". -/
def nodeHandlesStep (n : Node) (d : PyDict) : PyDict :=
  match n.handles with
  | Option.none => d
  | some hs =>
    pyDictInsert d "handles"
      (PyVal.list (hs.map fun h => PyVal.dict (xyHandleAsDict h)))

/-- The final step of `Node.to_dict`: `if self.extra:
node_dict.update(self.extra)`. -/
def nodeExtraStep (n : Node) (d : PyDict) : PyDict :=
  if n.extra.isEmpty then d else pyDictMerge d n.extra

/-- `Node.to_dict` from `data_types.py` (lines 116-132): serialize all
fields except `extra`, `position`, `handles`; set the normalized position;
append the handles as dicts when present; finally merge in `extra` (which
may overwrite any key). -/
def Node.to_dict (n : Node) : PyDict :=
  nodeExtraStep n
    (nodeHandlesStep n
      (pyDictInsert (_dataclass_to_dict n.fieldList ["extra", "position", "handles"])
        "position" (nodePositionVal n)))

/-- The `if self.data: edge["data"] = self.data` step of `Edge.to_dict`. -/
def edgeDataStep (e : Edge) (d : PyDict) : PyDict :=
  if e.data.isEmpty then d else pyDictInsert d "data" (PyVal.dict e.data)

/-- The final step of `Edge.to_dict`: `if self.extra:
edge.update(self.extra)`. -/
def edgeExtraStep (e : Edge) (d : PyDict) : PyDict :=
  if e.extra.isEmpty then d else pyDictMerge d e.extra

/-- `Edge.to_dict` from `data_types.py` (lines 191-199): serialize all
fields except `extra` and `data`; add `data` back only when non-empty;
finally merge in `extra`. -/
def Edge.to_dict (e : Edge) : PyDict :=
  edgeExtraStep e (edgeDataStep e (_dataclass_to_dict e.fieldList ["extra", "data"]))

/-- The field names accepted by `Node.__init__` (keyword arguments after
snake-casing in `Node.from_dict`). -/
def nodeFieldNames : List String :=
  ["id", "position", "data", "type", "source_position", "target_position",
    "hidden", "selected", "dragging", "draggable", "selectable",
    "connectable", "deletable", "drag_handle", "width", "height",
    "initial_width", "initial_height", "parent_id", "z_index", "extent",
    "expand_parent", "origin", "handles", "aria_label",
    "aria_role_description", "measured", "extra"]

/-- The `Node` fields without default values. -/
def nodeRequiredFields : List String := ["id", "position"]

/-- The field names accepted by `Edge.__init__`. -/
def edgeFieldNames : List String :=
  ["id", "source", "target", "type", "data", "animated", "hidden",
    "selected", "deletable", "selectable", "focusable", "z_index", "label",
    "label_style", "label_show_bg", "label_bg_style", "label_bg_padding",
    "label_bg_border_radius", "style", "class_name", "marker_start",
    "marker_end", "path_options", "interaction_width", "source_handle_id",
    "target_handle_id", "reconnectable", "aria_label", "aria_role", "extra"]

/-- The `Edge` fields without default values. -/
def edgeRequiredFields : List String := ["id", "source", "target"]

/-- The validation performed by `Node.from_dict` / `Edge.from_dict`
(`data_types.py` lines 134-137 and 201-204): every key of the mapping,
snake-cased, must be a field of the dataclass, and every required field must
be supplied, otherwise `cls(**kwargs)` raises a `TypeError`. Dataclasses do
not check value types at runtime, so only key shape is validated. -/
def fromDictCheck (fieldNames required : List String) (d : PyDict) :
    Except String Unit :=
  match (d.map fun p => _camel_case_to_snake_case p.1).find?
      (fun k => !fieldNames.contains k) with
  | some k =>
    Except.error ("TypeError: __init__() got an unexpected keyword argument \x27"
      ++ k ++ "\x27")
  | Option.none =>
    match required.find?
        (fun k => !(d.map fun p => _camel_case_to_snake_case p.1).contains k) with
    | some k =>
      Except.error ("TypeError: __init__() missing required argument \x27"
        ++ k ++ "\x27")
    | Option.none => Except.ok ()

/-- `_default_nodes` from `widget.py` (lines 14-17). -/
def _default_nodes : List PyDict :=
  [[("id", PyVal.str "1"),
      ("position", PyVal.dict [("x", PyVal.num 0), ("y", PyVal.num 0)]),
      ("data", PyVal.dict [("label", PyVal.str "1")])],
    [("id", PyVal.str "2"),
      ("position", PyVal.dict [("x", PyVal.num 0), ("y", PyVal.num 100)]),
      ("data", PyVal.dict [("label", PyVal.str "2")])]]

/-- `_default_edges` from `widget.py` (line 18). -/
def _default_edges : List PyDict :=
  [[("id", PyVal.str "e1-2"), ("source", PyVal.str "1"),
      ("target", PyVal.str "2")]]

/-- The synchronized state of `XYFlowWidget` (`widget.py` lines 21-42) that
the claims are about: the node list, the edge list and the props mapping
(the dimension and last-event traits play no role in any claim and are
omitted). -/
structure XYFlowWidget where
  nodes : List PyDict := _default_nodes
  edges : List PyDict := _default_edges
  props : PyDict := []

/-- The loop body of `_update_index` (`widget.py` lines 150-168), carrying
the running index `i` of `enumerate`; the comparison `i != index` is over
Python ints, so a negative `index` never matches. -/
def updateIndexGo (index : Int) (value update : Option PyDict) :
    Int → List PyDict → List PyDict
  | _, [] => []
  | i, v :: rest =>
    (if i ≠ index then v
      else
        match value with
        | some x => x
        | Option.none =>
          match update with
          | some u => if !u.isEmpty then pyDictMerge v u else v
          | Option.none => v) :: updateIndexGo index value update (i + 1) rest

/-- `_update_index` from `widget.py` (lines 150-168): rebuild the whole
list, replacing position `index` by `value` (if given) or by the shallow
merge `{**v, **update}` (if `update` is a non-empty dict). -/
def _update_index (lst : List PyDict) (index : Int)
    (value update : Option PyDict) : List PyDict :=
  updateIndexGo index value update 0 lst

/-- The `update or None` argument at the `_update_index` call sites. -/
def updateOrNone (u : PyDict) : Option PyDict :=
  if u.isEmpty then Option.none else some u

/-- The `node` argument of `update_node`: a typed `Node` or a raw dict. -/
inductive NodeArg where
  | typed (n : Node)
  | raw (d : PyDict)

/-- The `edge` argument of `update_edge`: a typed `Edge` or a raw dict. -/
inductive EdgeArg where
  | typed (e : Edge)
  | raw (d : PyDict)

/-- `XYFlowWidget.update_node` from `widget.py` (lines 82-119). The two
usage errors are raised before anything else; a raw dict replacement is
validated by `Node.from_dict` (the constructed object is discarded and the
raw dict is used); only then is `self.nodes` reassigned. An error result
means the state was not touched. -/
def update_node (w : XYFlowWidget) (index : Int) (node : Option NodeArg)
    (update : PyDict) : Except String XYFlowWidget :=
  if node.isSome && !update.isEmpty then
    Except.error "Cannot provide both \x27node\x27 and update kwargs"
  else if node.isNone && update.isEmpty then
    Except.error "Must provide either \x27node\x27 or update kwargs"
  else
    match node with
    | some (NodeArg.typed n) =>
      Except.ok
        { w with
          nodes := _update_index w.nodes index (some n.to_dict) (updateOrNone update) }
    | some (NodeArg.raw d) =>
      match fromDictCheck nodeFieldNames nodeRequiredFields d with
      | Except.error msg => Except.error msg
      | Except.ok _ =>
        Except.ok
          { w with
            nodes := _update_index w.nodes index (some d) (updateOrNone update) }
    | Option.none =>
      Except.ok
        { w with
          nodes := _update_index w.nodes index Option.none (updateOrNone update) }

/-- `XYFlowWidget.update_edge` from `widget.py` (lines 44-80): identical
contract on the edge collection. -/
def update_edge (w : XYFlowWidget) (index : Int) (edge : Option EdgeArg)
    (update : PyDict) : Except String XYFlowWidget :=
  if edge.isSome && !update.isEmpty then
    Except.error "Cannot provide both \x27edge\x27 and update kwargs"
  else if edge.isNone && update.isEmpty then
    Except.error "Must provide either \x27edge\x27 or update kwargs"
  else
    match edge with
    | some (EdgeArg.typed e) =>
      Except.ok
        { w with
          edges := _update_index w.edges index (some e.to_dict) (updateOrNone update) }
    | some (EdgeArg.raw d) =>
      match fromDictCheck edgeFieldNames edgeRequiredFields d with
      | Except.error msg => Except.error msg
      | Except.ok _ =>
        Except.ok
          { w with
            edges := _update_index w.edges index (some d) (updateOrNone update) }
    | Option.none =>
      Except.ok
        { w with
          edges := _update_index w.edges index Option.none (updateOrNone update) }

theorem updateIndexGo_out_of_range (lst : List PyDict) (index start : Int)
    (value update : Option PyDict)
    (h : index < start ∨ start + lst.length ≤ index) :
    updateIndexGo index value update start lst = lst := by
  induction lst generalizing start with
  | nil => rfl
  | cons v rest ih =>
    have hlen : (List.length (v :: rest) : Int) = rest.length + 1 := by
      simp
    have hne : start ≠ index := by
      rcases h with h | h
      · omega
      · rw [hlen] at h; omega
    simp only [updateIndexGo, if_pos hne]
    rw [ih (start + 1)]
    rcases h with h | h
    · left; omega
    · right; rw [hlen] at h; omega

theorem updateIndexGo_in_range (lst : List PyDict) (start : Int) (k : Nat)
    (u : PyDict) (hk : k < lst.length) (hu : u.isEmpty = false) :
    updateIndexGo (start + k) Option.none (some u) start lst =
      lst.set k (pyDictMerge (lst.getD k []) u) := by
  induction lst generalizing start k with
  | nil => simp at hk
  | cons v rest ih =>
    cases k with
    | zero =>
      have heq : ¬(start ≠ start + ((0 : Nat) : Int)) := by omega
      have htail : updateIndexGo (start + ((0 : Nat) : Int)) Option.none
          (some u) (start + 1) rest = rest :=
        updateIndexGo_out_of_range _ _ _ _ _ (by left; omega)
      simp only [updateIndexGo, if_neg heq, hu, Bool.not_false, htail,
        List.set_cons_zero, List.getD_cons_zero]
      simp
    | succ k' =>
      have hne : start ≠ start + ((k' + 1 : Nat) : Int) := by
        push_cast
        omega
      have hidx : start + ((k' + 1 : Nat) : Int) = (start + 1) + (k' : Int) := by
        push_cast
        omega
      simp only [updateIndexGo, if_pos hne, List.set_cons_succ,
        List.getD_cons_succ]
      rw [hidx, ih (start + 1) k' (by simpa using hk)]

theorem isEmpty_false_of_ne_nil {u : PyDict} (hu : u ≠ []) :
    u.isEmpty = false := by
  cases u with
  | nil => exact absurd rfl hu
  | cons a l => rfl

/-- C2: for every widget state and every index outside `[0, length)` —
including every negative index — `update_node` / `update_edge` with a
non-empty partial update raise no error and rebuild the collection
identically (the result is the unchanged widget). -/
theorem C2_out_of_range_update_is_noop (w : XYFlowWidget) (i : Int)
    (u : PyDict) (hu : u ≠ []) :
    ((i < 0 ∨ (w.nodes.length : Int) ≤ i) →
      update_node w i Option.none u = Except.ok w) ∧
    ((i < 0 ∨ (w.edges.length : Int) ≤ i) →
      update_edge w i Option.none u = Except.ok w) := by
  have hue : u.isEmpty = false := isEmpty_false_of_ne_nil hu
  constructor
  · intro hi
    unfold update_node
    rw [if_neg (by simp), if_neg (by simp [hue])]
    have hrw : _update_index w.nodes i Option.none (updateOrNone u) = w.nodes := by
      unfold _update_index updateOrNone
      rw [if_neg (by simp [hue])]
      exact updateIndexGo_out_of_range _ _ _ _ _
        (by rcases hi with h | h
            · left; omega
            · right; omega)
    rw [hrw]
  · intro hi
    unfold update_edge
    rw [if_neg (by simp), if_neg (by simp [hue])]
    have hrw : _update_index w.edges i Option.none (updateOrNone u) = w.edges := by
      unfold _update_index updateOrNone
      rw [if_neg (by simp [hue])]
      exact updateIndexGo_out_of_range _ _ _ _ _
        (by rcases hi with h | h
            · left; omega
            · right; omega)
    rw [hrw]

/-- Witness for C2: `update_node(10, selected=True)` (and the edge
analogue) on the default two-node, one-edge widget returns the widget
unchanged. -/
theorem C2_out_of_range_update_is_noop_witness :
    (([("selected", PyVal.bool true)] : PyDict) ≠ []) ∧
      update_node {} 10 Option.none [("selected", PyVal.bool true)] =
        Except.ok {} ∧
      update_edge {} 10 Option.none [("selected", PyVal.bool true)] =
        Except.ok {} :=
  ⟨by simp,
    (C2_out_of_range_update_is_noop {} 10 [("selected", PyVal.bool true)]
          (by simp)).1
      (by right; show ((2 : Nat) : Int) ≤ 10; decide),
    (C2_out_of_range_update_is_noop {} 10 [("selected", PyVal.bool true)]
          (by simp)).2
      (by right; show ((1 : Nat) : Int) ≤ 10; decide)⟩

theorem fromDictCheck_error_of_invalid (fieldNames required : List String)
    (d : PyDict)
    (h : ((d.map fun p => _camel_case_to_snake_case p.1).all
          (fun k => fieldNames.contains k) &&
        required.all fun k =>
          (d.map fun p => _camel_case_to_snake_case p.1).contains k) = false) :
    ∃ msg, fromDictCheck fieldNames required d = Except.error msg := by
  cases hf : (d.map fun p => _camel_case_to_snake_case p.1).find?
      (fun k => !fieldNames.contains k) with
  | some k => exact ⟨_, by unfold fromDictCheck; rw [hf]⟩
  | none =>
    cases hg : required.find?
        (fun k => !(d.map fun p => _camel_case_to_snake_case p.1).contains k) with
    | some k => exact ⟨_, by unfold fromDictCheck; rw [hf, hg]⟩
    | none =>
      exfalso
      have h1 : (d.map fun p => _camel_case_to_snake_case p.1).all
          (fun k => fieldNames.contains k) = true := by
        rw [List.all_eq_true]
        intro k hk
        have := List.find?_eq_none.mp hf k hk
        simpa using this
      have h2 : (required.all fun k =>
          (d.map fun p => _camel_case_to_snake_case p.1).contains k) = true := by
        rw [List.all_eq_true]
        intro k hk
        have := List.find?_eq_none.mp hg k hk
        simpa using this
      rw [h1, h2] at h
      cases h

/-- C3: `update_node` / `update_edge` raise a `ValueError` when both the
replacement and a partial update are supplied, and when neither is; a raw
replacement mapping with an unrecognized key or a missing required field
raises a `TypeError` from the validating deserialization. Every error case
produces `Except.error`, i.e. no new widget state: the nodes, edges and
props are exactly as before the call. -/
theorem C3_update_error_cases (w : XYFlowWidget) (i : Int) (a : NodeArg)
    (b : EdgeArg) (u d : PyDict) (hu : u ≠ []) :
    (update_node w i (some a) u =
      Except.error "Cannot provide both \x27node\x27 and update kwargs") ∧
    (update_node w i Option.none [] =
      Except.error "Must provide either \x27node\x27 or update kwargs") ∧
    (update_edge w i (some b) u =
      Except.error "Cannot provide both \x27edge\x27 and update kwargs") ∧
    (update_edge w i Option.none [] =
      Except.error "Must provide either \x27edge\x27 or update kwargs") ∧
    (((d.map fun p => _camel_case_to_snake_case p.1).all
          (fun k => nodeFieldNames.contains k) &&
        nodeRequiredFields.all fun k =>
          (d.map fun p => _camel_case_to_snake_case p.1).contains k) = false →
      ∃ msg, update_node w i (some (NodeArg.raw d)) [] = Except.error msg) ∧
    (((d.map fun p => _camel_case_to_snake_case p.1).all
          (fun k => edgeFieldNames.contains k) &&
        edgeRequiredFields.all fun k =>
          (d.map fun p => _camel_case_to_snake_case p.1).contains k) = false →
      ∃ msg, update_edge w i (some (EdgeArg.raw d)) [] = Except.error msg) := by
  have hue : u.isEmpty = false := isEmpty_false_of_ne_nil hu
  refine ⟨?_, ?_, ?_, ?_, ?_, ?_⟩
  · unfold update_node
    rw [if_pos (by simp [hue])]
  · unfold update_node
    rw [if_neg (by simp), if_pos (by simp)]
  · unfold update_edge
    rw [if_pos (by simp [hue])]
  · unfold update_edge
    rw [if_neg (by simp), if_pos (by simp)]
  · intro hbad
    obtain ⟨msg, hmsg⟩ :=
      fromDictCheck_error_of_invalid nodeFieldNames nodeRequiredFields d hbad
    refine ⟨msg, ?_⟩
    unfold update_node
    rw [if_neg (by simp), if_neg (by simp)]
    simp only [hmsg]
  · intro hbad
    obtain ⟨msg, hmsg⟩ :=
      fromDictCheck_error_of_invalid edgeFieldNames edgeRequiredFields d hbad
    refine ⟨msg, ?_⟩
    unfold update_edge
    rw [if_neg (by simp), if_neg (by simp)]
    simp only [hmsg]

/-- Witness for C3 at the default widget, a raw mapping with the
unrecognized key "bogus", index 0 and the partial update `animated=True`. -/
theorem C3_update_error_cases_witness :
    (([("animated", PyVal.bool true)] : PyDict) ≠ []) ∧
      ((([("bogus", PyVal.str "x")] : PyDict).map
            (fun p => _camel_case_to_snake_case p.1)).all
          (fun k => nodeFieldNames.contains k) &&
        nodeRequiredFields.all fun k =>
          (([("bogus", PyVal.str "x")] : PyDict).map
            fun p => _camel_case_to_snake_case p.1).contains k) = false ∧
      (update_node {} 0 (some (NodeArg.raw [("id", PyVal.str "1")]))
          [("animated", PyVal.bool true)] =
        Except.error "Cannot provide both \x27node\x27 and update kwargs") ∧
      (∃ msg, update_node {} 0 (some (NodeArg.raw [("bogus", PyVal.str "x")]))
          [] = Except.error msg) := by
  refine ⟨by simp, by decide, ?_, ?_⟩
  · exact (C3_update_error_cases {} 0 (NodeArg.raw [("id", PyVal.str "1")])
      (EdgeArg.raw []) [("animated", PyVal.bool true)]
      [("bogus", PyVal.str "x")] (by simp)).1
  · exact (C3_update_error_cases {} 0 (NodeArg.raw [("id", PyVal.str "1")])
      (EdgeArg.raw []) [("animated", PyVal.bool true)]
      [("bogus", PyVal.str "x")] (by simp)).2.2.2.2.1 (by decide)

/-- C4: for every widget state and every in-range index `i`,
`update_node i partial` sets the node at position `i` to the shallow merge
of the old node mapping with `partial` (partial winning for each key both
define, the old value surviving for the others) and leaves every other node,
the whole edge list and the props mapping unchanged; `update_edge` is
symmetric on the edge collection. -/
theorem C4_in_range_partial_update (w : XYFlowWidget) (i : Nat) (u : PyDict)
    (hu : u ≠ []) (hnd : pyDictNodup u) :
    (i < w.nodes.length →
      update_node w (i : Int) Option.none u =
        Except.ok
          { w with nodes := w.nodes.set i (pyDictMerge (w.nodes.getD i []) u) }) ∧
    (∀ old : PyDict, ∀ k v, pyDictGet u k = some v →
      pyDictGet (pyDictMerge old u) k = some v) ∧
    (∀ old : PyDict, ∀ k, containsKey u k = false →
      pyDictGet (pyDictMerge old u) k = pyDictGet old k) ∧
    (i < w.edges.length →
      update_edge w (i : Int) Option.none u =
        Except.ok
          { w with edges := w.edges.set i (pyDictMerge (w.edges.getD i []) u) }) := by
  have hue : u.isEmpty = false := isEmpty_false_of_ne_nil hu
  refine ⟨?_, ?_, ?_, ?_⟩
  · intro hi
    unfold update_node
    rw [if_neg (by simp), if_neg (by simp [hue])]
    have hrw : _update_index w.nodes (i : Int) Option.none (updateOrNone u) =
        w.nodes.set i (pyDictMerge (w.nodes.getD i []) u) := by
      unfold _update_index updateOrNone
      rw [if_neg (by simp [hue])]
      have h0 : ((i : Nat) : Int) = 0 + ((i : Nat) : Int) := by omega
      rw [h0]
      exact updateIndexGo_in_range w.nodes 0 i u hi hue
    rw [hrw]
  · intro old k v hv
    exact get_merge_of_get old u k v hnd hv
  · intro old k hk
    exact get_merge_of_not_contains old u k hk
  · intro hi
    unfold update_edge
    rw [if_neg (by simp), if_neg (by simp [hue])]
    have hrw : _update_index w.edges (i : Int) Option.none (updateOrNone u) =
        w.edges.set i (pyDictMerge (w.edges.getD i []) u) := by
      unfold _update_index updateOrNone
      rw [if_neg (by simp [hue])]
      have h0 : ((i : Nat) : Int) = 0 + ((i : Nat) : Int) := by omega
      rw [h0]
      exact updateIndexGo_in_range w.edges 0 i u hi hue
    rw [hrw]

/-- Witness for C4: `update_node(0, selected=True)` on the default widget
merges `selected` into node 0 only. -/
theorem C4_in_range_partial_update_witness :
    (([("selected", PyVal.bool true)] : PyDict) ≠ []) ∧
      pyDictNodup [("selected", PyVal.bool true)] ∧
      (0 : Nat) < (XYFlowWidget.nodes {}).length ∧
      update_node {} ((0 : Nat) : Int) Option.none
          [("selected", PyVal.bool true)] =
        Except.ok
          { (({} : XYFlowWidget)) with
            nodes :=
              (XYFlowWidget.nodes {}).set 0
                (pyDictMerge ((XYFlowWidget.nodes {}).getD 0 [])
                  [("selected", PyVal.bool true)]) } :=
  ⟨by simp, by simp [pyDictNodup], by decide,
    (C4_in_range_partial_update {} 0 [("selected", PyVal.bool true)] (by simp)
        (by simp [pyDictNodup])).1
      (by decide)⟩

theorem contains_insert_ne_false (d : PyDict) (k k' : String) (v : PyVal)
    (hd : containsKey d k = false) (hne : k' ≠ k) :
    containsKey (pyDictInsert d k' v) k = false := by
  induction d with
  | nil =>
    simp only [pyDictInsert, containsKey, Bool.or_eq_false_iff]
    exact ⟨by simpa using hne, trivial⟩
  | cons p rest ih =>
    simp only [containsKey, Bool.or_eq_false_iff] at hd
    by_cases hp : p.1 == k'
    · simp only [pyDictInsert, if_pos hp, containsKey, Bool.or_eq_false_iff]
      exact ⟨by simpa using hne, hd.2⟩
    · simp only [pyDictInsert, if_neg hp, containsKey, Bool.or_eq_false_iff]
      exact ⟨hd.1, ih hd.2⟩

theorem contains_merge_false (a b : PyDict) (k : String)
    (ha : containsKey a k = false) (hb : containsKey b k = false) :
    containsKey (pyDictMerge a b) k = false := by
  induction b generalizing a with
  | nil => exact ha
  | cons p rest ih =>
    simp only [containsKey, Bool.or_eq_false_iff] at hb
    show containsKey (pyDictMerge (pyDictInsert a p.1 p.2) rest) k = false
    exact ih _ (contains_insert_ne_false a k p.1 p.2 ha
      (by simpa using hb.1)) hb.2

theorem contains_dcfold_mono (fields : List (String × Option PyVal))
    (excl : List String) (k : String) (acc : PyDict)
    (h : containsKey acc k = true) :
    containsKey (fields.foldl (dcStep excl) acc) k = true := by
  induction fields generalizing acc with
  | nil => exact h
  | cons kv rest ih =>
    refine ih _ ?_
    unfold dcStep
    by_cases he : excl.contains kv.1
    · rw [if_pos he]; exact h
    · rw [if_neg he]
      cases kv.2 with
      | none => exact h
      | some v => exact contains_insert_mono _ _ _ _ h

theorem contains_dcfold_of_mem (fields : List (String × Option PyVal))
    (excl : List String) (name : String) (v : PyVal) (acc : PyDict)
    (hmem : (name, some v) ∈ fields) (hexcl : excl.contains name = false) :
    containsKey (fields.foldl (dcStep excl) acc)
      (_snake_case_to_camel_case name) = true := by
  induction fields generalizing acc with
  | nil => simp at hmem
  | cons kv rest ih =>
    rcases List.mem_cons.mp hmem with he | hm
    · subst he
      refine contains_dcfold_mono rest excl _ _ ?_
      unfold dcStep
      rw [if_neg (by rw [hexcl]; exact Bool.false_ne_true)]
      exact contains_insert_self _ _ _
    · exact ih _ hm

theorem contains_dcfold_false (fields : List (String × Option PyVal))
    (excl : List String) (k : String) (acc : PyDict)
    (hacc : containsKey acc k = false)
    (hnames : ∀ name ∈ fields.map Prod.fst,
      excl.contains name = true ∨ _snake_case_to_camel_case name ≠ k) :
    containsKey (fields.foldl (dcStep excl) acc) k = false := by
  induction fields generalizing acc with
  | nil => exact hacc
  | cons kv rest ih =>
    refine ih _ ?_ fun name hm => hnames name (by simp [hm])
    unfold dcStep
    by_cases he : excl.contains kv.1
    · rw [if_pos he]; exact hacc
    · rw [if_neg he]
      cases kv.2 with
      | none => exact hacc
      | some v =>
        refine contains_insert_ne_false _ _ _ _ hacc ?_
        rcases hnames kv.1 (by simp) with h | h
        · exact absurd h he
        · exact h

theorem edge_fieldList_names (e : Edge) :
    e.fieldList.map Prod.fst = edgeFieldNames := rfl

theorem edge_no_other_field_camels_to_data :
    (edgeFieldNames.all fun name =>
      (["extra", "data"] : List String).contains name ||
        (_snake_case_to_camel_case name != "data")) = true := by decide

theorem contains_nodeHandlesStep_mono (n : Node) (d : PyDict) (k : String)
    (h : containsKey d k = true) :
    containsKey (nodeHandlesStep n d) k = true := by
  unfold nodeHandlesStep
  cases n.handles with
  | none => exact h
  | some hs => exact contains_insert_mono _ _ _ _ h

theorem contains_nodeExtraStep_mono (n : Node) (d : PyDict) (k : String)
    (h : containsKey d k = true) :
    containsKey (nodeExtraStep n d) k = true := by
  unfold nodeExtraStep
  by_cases he : n.extra.isEmpty
  · rw [if_pos he]; exact h
  · rw [if_neg he]; exact contains_merge_left _ _ _ h

theorem get_nodeHandlesStep_ne (n : Node) (d : PyDict) (k : String)
    (h : k ≠ "handles") :
    pyDictGet (nodeHandlesStep n d) k = pyDictGet d k := by
  unfold nodeHandlesStep
  cases n.handles with
  | none => rfl
  | some hs => exact get_insert_ne _ _ _ _ h

theorem get_nodeExtraStep_of_not_contains (n : Node) (d : PyDict) (k : String)
    (h : containsKey n.extra k = false) :
    pyDictGet (nodeExtraStep n d) k = pyDictGet d k := by
  unfold nodeExtraStep
  by_cases he : n.extra.isEmpty
  · rw [if_pos he]
  · rw [if_neg he]; exact get_merge_of_not_contains _ _ _ h

/-- C8 (amended): for every `Node`, `to_dict` contains the key "data" even
when the payload is empty; provided the `extra` escape hatch does not itself
define "position", `to_dict` maps "position" to the normalized `{x, y}`
value (a pair is converted, a mapping is passed through); for every `Edge`
whose `extra` does not define "data", `to_dict` contains "data" exactly when
the payload dict is non-empty. -/
theorem C8_to_dict_data_and_position (n : Node) (e : Edge) :
    containsKey n.to_dict "data" = true ∧
    (containsKey n.extra "position" = false →
      pyDictGet n.to_dict "position" = some (nodePositionVal n) ∧
      nodePositionVal n =
        (match n.position with
          | NodePosition.tup x y =>
            PyVal.dict [("x", PyVal.num x), ("y", PyVal.num y)]
          | NodePosition.map d => PyVal.dict d)) ∧
    (containsKey e.extra "data" = false →
      containsKey e.to_dict "data" = !e.data.isEmpty) := by
  refine ⟨?_, ?_, ?_⟩
  · have hbase : containsKey
        (_dataclass_to_dict n.fieldList ["extra", "position", "handles"])
        "data" = true := by
      unfold _dataclass_to_dict
      have hmem : ("data", some (PyVal.dict n.data)) ∈ n.fieldList := by
        unfold Node.fieldList
        exact List.Mem.tail _ (List.Mem.tail _ (List.Mem.head _))
      exact contains_dcfold_of_mem _ _ _ _ _ hmem (by decide)
    unfold Node.to_dict
    exact contains_nodeExtraStep_mono _ _ _
      (contains_nodeHandlesStep_mono _ _ _
        (contains_insert_mono _ _ _ _ hbase))
  · intro hex
    refine ⟨?_, rfl⟩
    unfold Node.to_dict
    rw [get_nodeExtraStep_of_not_contains _ _ _ hex,
      get_nodeHandlesStep_ne _ _ _ (by decide), get_insert_self]
  · intro hex
    have hbase : containsKey (_dataclass_to_dict e.fieldList ["extra", "data"])
        "data" = false := by
      unfold _dataclass_to_dict
      refine contains_dcfold_false _ _ _ _ rfl ?_
      intro name hm
      rw [edge_fieldList_names] at hm
      have hall := edge_no_other_field_camels_to_data
      rw [List.all_eq_true] at hall
      have hthis := hall name hm
      simp only [Bool.or_eq_true, bne_iff_ne, ne_eq] at hthis
      rcases hthis with h | h
      · left; exact h
      · right; exact h
    unfold Edge.to_dict edgeDataStep edgeExtraStep
    by_cases hd : e.data.isEmpty
    · rw [if_pos hd, hd, Bool.not_true]
      by_cases hee : e.extra.isEmpty
      · rw [if_pos hee]; exact hbase
      · rw [if_neg hee]; exact contains_merge_false _ _ _ hbase hex
    · rw [if_neg hd]
      have hd' : e.data.isEmpty = false := by
        cases h : e.data.isEmpty
        · rfl
        · exact absurd h hd
      rw [hd', Bool.not_false]
      have hins : containsKey
          (pyDictInsert (_dataclass_to_dict e.fieldList ["extra", "data"])
            "data" (PyVal.dict e.data)) "data" = true :=
        contains_insert_self _ _ _
      by_cases hee : e.extra.isEmpty
      · rw [if_pos hee]; exact hins
      · rw [if_neg hee]; exact contains_merge_left _ _ _ hins

/-- A concrete sample node for the C8 witness: tuple position, empty
payload, no extras. -/
def sampleNode : Node :=
  { id := "1", position := NodePosition.tup 1 2 }

/-- A concrete sample edge for the C8 witness: non-empty payload. -/
def sampleEdge : Edge :=
  { id := "e1", source := "a", target := "b", data := [("w", PyVal.num 1)] }

/-- A concrete edge whose `extra` escape hatch defines a "data" key while
the payload itself is empty. -/
def extraDataEdge : Edge :=
  { id := "e", source := "a", target := "b", extra := [("data", PyVal.str "x")] }

/-- Witness for C8 at a concrete node (tuple position, empty payload) and a
concrete edge (non-empty payload). -/
theorem C8_to_dict_data_and_position_witness :
    containsKey sampleNode.extra "position" = false ∧
      containsKey sampleEdge.extra "data" = false ∧
      containsKey sampleNode.to_dict "data" = true ∧
      pyDictGet sampleNode.to_dict "position" = some (nodePositionVal sampleNode) ∧
      containsKey sampleEdge.to_dict "data" = !sampleEdge.data.isEmpty :=
  ⟨rfl, rfl,
    (C8_to_dict_data_and_position sampleNode sampleEdge).1,
    ((C8_to_dict_data_and_position sampleNode sampleEdge).2.1 rfl).1,
    (C8_to_dict_data_and_position sampleNode sampleEdge).2.2 rfl⟩

/-- Counterexample to C8 as literally stated: an `Edge` with an empty
payload dict but an `extra` entry keyed "data" nonetheless serializes with
a "data" key, because `extra` is merged last and is not filtered. -/
theorem C8_counterexample_extra_data_key :
    extraDataEdge.data = ([] : PyDict) ∧
      containsKey extraDataEdge.to_dict "data" = true :=
  ⟨rfl, by decide⟩

/-- A networkx graph as `from_networkx` consumes it: the node view (node
identifiers of some type `α` with their attribute dicts, in insertion order,
identifiers pairwise distinct) and the edge view (`(u, v, attrs)` triples).
`str(n)` on identifiers is modelled by an explicit `pyStr` function passed
to the importer. -/
structure NXGraph (α : Type) where
  nodes : List (α × PyDict)
  edges : List (α × α × PyDict)

/-- `G.nodes[n]`: the attribute dict of node `n` (empty when absent; in
networkx every listed node is present). -/
def nxNodeAttrs [BEq α] (G : NXGraph α) (n : α) : PyDict :=
  ((G.nodes.find? fun p => p.1 == n).map Prod.snd).getD []

/-- The error message of `from_networkx` for an unsupported layout name
(`nx.py` lines 66-70). -/
def unsupportedLayoutMsg (layout : String) : String :=
  "Unsupported layout \x27" ++ layout ++
    "\x27. Expected one of the layout functions exposed by networkx, e.g. \x27spring\x27, \x27shell\x27, \x27kamada_kawai\x27, … or None for xyflow auto-layout"

/-- The node-construction loop body of `from_networkx` (`nx.py` lines
87-102) for one node `n` at layout position `(x, y)`: merge the defaults
with the node's own attributes (own attributes win), pop the "data" entry
(a `TypeError` is raised if it is present but not a mapping, since it is
splatted with `**`), build the wire mapping with the stringified id, the
scaled position and the label-seeded payload, then write every remaining
merged attribute over it. -/
def nxNodeDict (pyStr : α → String) (scale : ℚ) (node_defaults attrs0 : PyDict)
    (n : α) (x y : ℚ) : Except String PyDict :=
  match pyDictGet (pyDictMerge node_defaults attrs0) "data" with
  | some (PyVal.dict d0) =>
    Except.ok
      (pyDictMerge
        [("id", PyVal.str (pyStr n)),
          ("position",
            PyVal.dict [("x", PyVal.num (x * scale)), ("y", PyVal.num (y * scale))]),
          ("data",
            PyVal.dict (pyDictMerge [("label", PyVal.str (pyStr n))] d0))]
        (pyDictRemove (pyDictMerge node_defaults attrs0) "data"))
  | Option.none =>
    Except.ok
      (pyDictMerge
        [("id", PyVal.str (pyStr n)),
          ("position",
            PyVal.dict [("x", PyVal.num (x * scale)), ("y", PyVal.num (y * scale))]),
          ("data",
            PyVal.dict (pyDictMerge [("label", PyVal.str (pyStr n))] []))]
        (pyDictRemove (pyDictMerge node_defaults attrs0) "data"))
  | some _ => Except.error "TypeError: argument after ** must be a mapping"

/-- The edge-construction loop body of `from_networkx` (`nx.py` lines
104-109): merge the defaults with the edge's own attributes, synthesize the
identifier `e<u>-<v>` and the stringified endpoints, then write every merged
attribute over the result. -/
def nxEdgeDict (pyStr : α → String) (edge_defaults attrs0 : PyDict)
    (u v : α) : PyDict :=
  pyDictMerge
    [("id", PyVal.str ("e" ++ pyStr u ++ "-" ++ pyStr v)),
      ("source", PyVal.str (pyStr u)), ("target", PyVal.str (pyStr v))]
    (pyDictMerge edge_defaults attrs0)

/-- The layout-selection step of `from_networkx` (`nx.py` lines 56-73).
The delegated layout machinery is passed in explicitly: `nxHasLayout name`
models `hasattr(nx, f"{name}_layout")`, `nxLayoutFn name` the positions
returned by the chosen networkx layout function (with `layout_params` folded
in), and `graphvizFn` the positions returned by `graphviz_layout`.
`layout = none` (Python `None`) positions every node at `(0, 0)` via
`dict.fromkeys(G.nodes(), (0, 0))`. -/
def nxPositions {α : Type} (G : NXGraph α) (layout : Option String)
    (nxHasLayout : String → Bool) (nxLayoutFn : String → List (α × ℚ × ℚ))
    (graphvizFn : List (α × ℚ × ℚ)) : Except String (List (α × ℚ × ℚ)) :=
  match layout with
  | Option.none => Except.ok (G.nodes.map fun p => (p.1, (0 : ℚ), (0 : ℚ)))
  | some l =>
    if l == "graphviz" then Except.ok graphvizFn
    else if nxHasLayout l then Except.ok (nxLayoutFn l)
    else Except.error (unsupportedLayoutMsg l)

/-- The node loop of `from_networkx`: one wire mapping per layout position
(a raised `TypeError` aborts the whole construction). -/
def nxBuildNodes [BEq α] (pyStr : α → String) (G : NXGraph α) (scale : ℚ)
    (node_defaults : PyDict) (positions : List (α × ℚ × ℚ)) :
    Except String (List PyDict) :=
  positions.mapM fun p =>
    nxNodeDict pyStr scale node_defaults (nxNodeAttrs G p.1) p.1 p.2.1 p.2.2

/-- The edge loop of `from_networkx`: one wire mapping per edge of `G`. -/
def nxBuildEdges (pyStr : α → String) (G : NXGraph α)
    (edge_defaults : PyDict) : List PyDict :=
  G.edges.map fun t => nxEdgeDict pyStr edge_defaults t.2.2 t.1 t.2.1

/-- `from_networkx` from `nx.py` (lines 17-115): choose the layout
positions, build the node and edge wire mappings, and assemble the widget.
`rf_config` is the already-serialized `Props` mapping
(`rf_config.to_dict() if rf_config else {}`). -/
def from_networkx [BEq α] (pyStr : α → String) (G : NXGraph α)
    (layout : Option String) (scale : ℚ) (node_defaults edge_defaults : PyDict)
    (nxHasLayout : String → Bool) (nxLayoutFn : String → List (α × ℚ × ℚ))
    (graphvizFn : List (α × ℚ × ℚ)) (rf_config : Option PyDict) :
    Except String XYFlowWidget :=
  match nxPositions G layout nxHasLayout nxLayoutFn graphvizFn with
  | Except.error msg => Except.error msg
  | Except.ok positions =>
    match nxBuildNodes pyStr G scale node_defaults positions with
    | Except.error msg => Except.error msg
    | Except.ok nodes =>
      Except.ok
        { nodes := nodes,
          edges := nxBuildEdges pyStr G edge_defaults,
          props := rf_config.getD [] }

/-- The "data" entry of a merged attribute dict, when it is a mapping
(`attrs.pop("data", {})`). -/
def dataEntry (d : PyDict) : PyDict :=
  match pyDictGet d "data" with
  | some (PyVal.dict d0) => d0
  | _ => []

/-- Whether `attrs.pop("data", {})` can be splatted with `**`: the entry is
absent or is a mapping. -/
def dataEntryOk (d : PyDict) : Bool :=
  match pyDictGet d "data" with
  | some (PyVal.dict _) => true
  | Option.none => true
  | some _ => false

/-- The wire mapping produced by the node loop of `from_networkx` in the
non-raising case. -/
def nxNodeDictVal (pyStr : α → String) (scale : ℚ)
    (node_defaults attrs0 : PyDict) (n : α) (x y : ℚ) : PyDict :=
  pyDictMerge
    [("id", PyVal.str (pyStr n)),
      ("position",
        PyVal.dict [("x", PyVal.num (x * scale)), ("y", PyVal.num (y * scale))]),
      ("data",
        PyVal.dict
          (pyDictMerge [("label", PyVal.str (pyStr n))]
            (dataEntry (pyDictMerge node_defaults attrs0))))]
    (pyDictRemove (pyDictMerge node_defaults attrs0) "data")

theorem nxNodeDict_eq_ok (pyStr : α → String) (scale : ℚ)
    (nd attrs0 : PyDict) (n : α) (x y : ℚ)
    (hok : dataEntryOk (pyDictMerge nd attrs0) = true) :
    nxNodeDict pyStr scale nd attrs0 n x y =
      Except.ok (nxNodeDictVal pyStr scale nd attrs0 n x y) := by
  unfold nxNodeDict nxNodeDictVal dataEntry
  unfold dataEntryOk at hok
  cases hd : pyDictGet (pyDictMerge nd attrs0) "data" with
  | none => rfl
  | some v =>
    rw [hd] at hok
    cases v with
    | dict d0 => rfl
    | str s => cases hok
    | num q => cases hok
    | bool b => cases hok
    | none => cases hok
    | list xs => cases hok

theorem nxNodeDict_ok_inv (pyStr : α → String) (scale : ℚ)
    (nd attrs0 : PyDict) (n : α) (x y : ℚ) (out : PyDict)
    (h : nxNodeDict pyStr scale nd attrs0 n x y = Except.ok out) :
    out = nxNodeDictVal pyStr scale nd attrs0 n x y := by
  unfold nxNodeDict at h
  unfold nxNodeDictVal dataEntry
  cases hd : pyDictGet (pyDictMerge nd attrs0) "data" with
  | none =>
    rw [hd] at h
    exact (Except.ok.inj h).symm
  | some v =>
    rw [hd] at h
    cases v with
    | dict d0 => exact (Except.ok.inj h).symm
    | str s => cases h
    | num q => cases h
    | bool b => cases h
    | none => cases h
    | list xs => cases h

theorem contains_remove_false_of (d : PyDict) (k k' : String)
    (h : containsKey d k = false) :
    containsKey (pyDictRemove d k') k = false := by
  cases hc : containsKey (pyDictRemove d k') k with
  | false => rfl
  | true => rw [contains_remove_imp d k k' hc] at h; cases h

theorem get_nxNodeDictVal_id (pyStr : α → String) (scale : ℚ)
    (nd attrs0 : PyDict) (n : α) (x y : ℚ)
    (hid : containsKey (pyDictMerge nd attrs0) "id" = false) :
    pyDictGet (nxNodeDictVal pyStr scale nd attrs0 n x y) "id" =
      some (PyVal.str (pyStr n)) := by
  unfold nxNodeDictVal
  rw [get_merge_of_not_contains _ _ _ (contains_remove_false_of _ _ _ hid)]
  rfl

theorem get_nxNodeDictVal_position (pyStr : α → String) (scale : ℚ)
    (nd attrs0 : PyDict) (n : α) (x y : ℚ)
    (hpos : containsKey (pyDictMerge nd attrs0) "position" = false) :
    pyDictGet (nxNodeDictVal pyStr scale nd attrs0 n x y) "position" =
      some (PyVal.dict
        [("x", PyVal.num (x * scale)), ("y", PyVal.num (y * scale))]) := by
  unfold nxNodeDictVal
  rw [get_merge_of_not_contains _ _ _ (contains_remove_false_of _ _ _ hpos)]
  rfl

theorem get_nxNodeDictVal_data (pyStr : α → String) (scale : ℚ)
    (nd attrs0 : PyDict) (n : α) (x y : ℚ) :
    pyDictGet (nxNodeDictVal pyStr scale nd attrs0 n x y) "data" =
      some (PyVal.dict
        (pyDictMerge [("label", PyVal.str (pyStr n))]
          (dataEntry (pyDictMerge nd attrs0)))) := by
  unfold nxNodeDictVal
  rw [get_merge_of_not_contains _ _ _ (contains_remove_self _ _)]
  rfl

theorem get_nxNodeDictVal_of_attr (pyStr : α → String) (scale : ℚ)
    (nd attrs0 : PyDict) (n : α) (x y : ℚ) (k : String) (v : PyVal)
    (hnd : pyDictNodup (pyDictMerge nd attrs0)) (hk : k ≠ "data")
    (hv : pyDictGet (pyDictMerge nd attrs0) k = some v) :
    pyDictGet (nxNodeDictVal pyStr scale nd attrs0 n x y) k = some v := by
  unfold nxNodeDictVal
  refine get_merge_of_get _ _ _ _ (nodup_remove _ _ hnd) ?_
  rw [get_remove_ne _ _ _ hk]
  exact hv

theorem mapM_except_ok {β γ : Type} (f : β → Except String γ) (g : β → γ)
    (l : List β) (h : ∀ b ∈ l, f b = Except.ok (g b)) :
    l.mapM f = Except.ok (l.map g) := by
  induction l with
  | nil => rfl
  | cons b rest ih =>
    rw [List.mapM_cons, h b (List.mem_cons_self b rest),
      ih fun b hb => h b (List.mem_cons_of_mem _ hb)]
    rfl

/-- C6: for every graph and every layout name other than "graphviz" for
which networkx exposes no `<name>_layout` function, `from_networkx` returns
the "unsupported layout" error whose message names the offending value —
before any node mapping, edge mapping or widget state is constructed (the
error is the whole result). -/
theorem C6_unsupported_layout {α : Type} [BEq α] (pyStr : α → String)
    (G : NXGraph α) (name : String) (scale : ℚ) (nd ed : PyDict)
    (nxHas : String → Bool) (nxFn : String → List (α × ℚ × ℚ))
    (gvFn : List (α × ℚ × ℚ)) (cfg : Option PyDict)
    (h1 : name ≠ "graphviz") (h2 : nxHas name = false) :
    from_networkx pyStr G (some name) scale nd ed nxHas nxFn gvFn cfg =
      Except.error (unsupportedLayoutMsg name) ∧
    unsupportedLayoutMsg name =
      "Unsupported layout \x27" ++ name ++
        "\x27. Expected one of the layout functions exposed by networkx, e.g. \x27spring\x27, \x27shell\x27, \x27kamada_kawai\x27, … or None for xyflow auto-layout" := by
  constructor
  · have hg : (name == "graphviz") = false := beq_eq_false_iff_ne.mpr h1
    unfold from_networkx nxPositions
    simp only [hg, h2, Bool.false_eq_true, if_false]
  · rfl

/-- Witness for C6: `layout="bogus"` fails with the expected message. -/
theorem C6_unsupported_layout_witness :
    ("bogus" ≠ "graphviz") ∧
      from_networkx (fun s : String => s)
          { nodes := [("a", [])], edges := [] } (some "bogus") 400 [] []
          (fun _ => false) (fun _ => []) [] Option.none =
        Except.error (unsupportedLayoutMsg "bogus") :=
  ⟨by decide,
    (C6_unsupported_layout (fun s : String => s)
        { nodes := [("a", [])], edges := [] } "bogus" 400 [] []
        (fun _ => false) (fun _ => []) [] Option.none (by decide) rfl).1⟩

/-- Counterexample to C5 as literally stated: with `layout=None`, a node
whose own attribute dict defines "position" does not end up at
`{x: 0.0, y: 0.0}` — the merged attributes are written over the computed
wire mapping last, so the attribute value wins. -/
theorem C5_counterexample_attr_overrides_position :
    (from_networkx (fun s : String => s)
          { nodes := [("n", [("position", PyVal.str "nope")])], edges := [] }
          Option.none 400 [] [] (fun _ => false) (fun _ => []) []
          Option.none).map
        (fun w => w.nodes.map fun d => pyDictGet d "position") =
      Except.ok [some (PyVal.str "nope")] ∧
    PyVal.str "nope" ≠
      PyVal.dict [("x", PyVal.num 0), ("y", PyVal.num 0)] := by
  constructor
  · rfl
  · intro hcon
    cases hcon

/-- C5 (amended): for every graph `G` with `N` nodes and `M` edges whose
merged node attributes (defaults merged with each node's own attributes)
define neither "id" nor "position", and whose "data" entry — when present —
is a mapping, `from_networkx` with `layout=None` succeeds and produces
exactly `N` node mappings whose "id" values are exactly the stringified
node list of `G`, each at position `{x: 0.0, y: 0.0}`, and exactly `M` edge
mappings. -/
theorem C5_from_networkx_layout_none {α : Type} [BEq α] (pyStr : α → String)
    (G : NXGraph α) (scale : ℚ) (nd ed : PyDict) (nxHas : String → Bool)
    (nxFn : String → List (α × ℚ × ℚ)) (gvFn : List (α × ℚ × ℚ))
    (cfg : Option PyDict)
    (h : ∀ p ∈ G.nodes,
      containsKey (pyDictMerge nd (nxNodeAttrs G p.1)) "id" = false ∧
        containsKey (pyDictMerge nd (nxNodeAttrs G p.1)) "position" = false ∧
        dataEntryOk (pyDictMerge nd (nxNodeAttrs G p.1)) = true) :
    ∃ w, from_networkx pyStr G Option.none scale nd ed nxHas nxFn gvFn cfg =
        Except.ok w ∧
      w.nodes.length = G.nodes.length ∧
      w.edges.length = G.edges.length ∧
      w.nodes.map (fun d => pyDictGet d "id") =
        G.nodes.map (fun p => some (PyVal.str (pyStr p.1))) ∧
      ∀ d ∈ w.nodes, pyDictGet d "position" =
        some (PyVal.dict [("x", PyVal.num 0), ("y", PyVal.num 0)]) := by
  have hnodes : nxBuildNodes pyStr G scale nd
      (G.nodes.map fun p => (p.1, (0 : ℚ), (0 : ℚ))) =
      Except.ok ((G.nodes.map fun p => (p.1, (0 : ℚ), (0 : ℚ))).map fun q =>
        nxNodeDictVal pyStr scale nd (nxNodeAttrs G q.1) q.1 q.2.1 q.2.2) := by
    unfold nxBuildNodes
    refine mapM_except_ok _ _ _ ?_
    intro q hq
    obtain ⟨p, hp, hpq⟩ := List.mem_map.mp hq
    cases hpq
    exact nxNodeDict_eq_ok _ _ _ _ _ _ _ (h p hp).2.2
  refine
    Exists.intro
      (XYFlowWidget.mk
        ((G.nodes.map fun p => (p.1, (0 : ℚ), (0 : ℚ))).map fun q =>
          nxNodeDictVal pyStr scale nd (nxNodeAttrs G q.1) q.1 q.2.1 q.2.2)
        (nxBuildEdges pyStr G ed) (cfg.getD []))
      ⟨?_, ?_, ?_, ?_, ?_⟩
  · unfold from_networkx
    rw [show nxPositions G Option.none nxHas nxFn gvFn =
        Except.ok (G.nodes.map fun p => (p.1, (0 : ℚ), (0 : ℚ))) from rfl]
    simp only [hnodes]
  · simp
  · show (nxBuildEdges pyStr G ed).length = G.edges.length
    unfold nxBuildEdges
    simp
  · show ((G.nodes.map fun p => (p.1, (0 : ℚ), (0 : ℚ))).map fun q =>
        nxNodeDictVal pyStr scale nd (nxNodeAttrs G q.1) q.1 q.2.1 q.2.2).map
        (fun d => pyDictGet d "id") =
      G.nodes.map fun p => some (PyVal.str (pyStr p.1))
    rw [List.map_map, List.map_map]
    refine List.map_congr_left ?_
    intro p hp
    exact get_nxNodeDictVal_id _ _ _ _ _ _ _ (h p hp).1
  · intro d hd
    simp only [List.map_map, List.mem_map] at hd
    obtain ⟨p, hp, hpd⟩ := hd
    rw [← hpd]
    show pyDictGet
        (nxNodeDictVal pyStr scale nd (nxNodeAttrs G p.1) p.1 0 0) "position" =
      some (PyVal.dict [("x", PyVal.num 0), ("y", PyVal.num 0)])
    rw [get_nxNodeDictVal_position _ _ _ _ _ _ _ (h p hp).2.1, zero_mul]

/-- A concrete two-node, one-edge graph with no attribute overrides, for
the C5 witness. -/
def sampleGraph : NXGraph String :=
  { nodes := [("a", []), ("b", [])], edges := [("a", "b", [])] }

/-- Witness for C5 at `sampleGraph` with scale 400. -/
theorem C5_from_networkx_layout_none_witness :
    (∀ p ∈ sampleGraph.nodes,
      containsKey (pyDictMerge [] (nxNodeAttrs sampleGraph p.1)) "id" = false ∧
        containsKey (pyDictMerge [] (nxNodeAttrs sampleGraph p.1)) "position" =
          false ∧
        dataEntryOk (pyDictMerge [] (nxNodeAttrs sampleGraph p.1)) = true) ∧
      (∃ w, from_networkx (fun s : String => s) sampleGraph Option.none 400
            [] [] (fun _ => false) (fun _ => []) [] Option.none =
          Except.ok w ∧
        w.nodes.length = sampleGraph.nodes.length ∧
        w.edges.length = sampleGraph.edges.length ∧
        w.nodes.map (fun d => pyDictGet d "id") =
          sampleGraph.nodes.map
            (fun p => some (PyVal.str ((fun s : String => s) p.1))) ∧
        ∀ d ∈ w.nodes, pyDictGet d "position" =
          some (PyVal.dict [("x", PyVal.num 0), ("y", PyVal.num 0)])) :=
  ⟨by decide,
    C5_from_networkx_layout_none (fun s : String => s) sampleGraph 400 [] []
      (fun _ => false) (fun _ => []) [] Option.none (by decide)⟩

/-- C7: in `from_networkx` the attribute mapping of a node is the shallow
merge of the defaults with the node's own attributes (the node's own value
winning for every key both define, the default surviving otherwise); the
output "data" mapping is `{"label": str(n)}` overwritten key-by-key by the
"data" entry of the merged attributes; an edge's mapping is merged the same
way from the edge defaults. -/
theorem C7_importer_merge_semantics {α : Type} (pyStr : α → String)
    (scale : ℚ) (nd attrs0 ed eattrs : PyDict) (n : α) (x y : ℚ) (u v : α)
    (hnodup : pyDictNodup attrs0)
    (hok : dataEntryOk (pyDictMerge nd attrs0) = true) :
    (∀ k vv, pyDictGet attrs0 k = some vv →
      pyDictGet (pyDictMerge nd attrs0) k = some vv) ∧
    (∀ k, containsKey attrs0 k = false →
      pyDictGet (pyDictMerge nd attrs0) k = pyDictGet nd k) ∧
    (nxNodeDict pyStr scale nd attrs0 n x y =
        Except.ok (nxNodeDictVal pyStr scale nd attrs0 n x y) ∧
      pyDictGet (nxNodeDictVal pyStr scale nd attrs0 n x y) "data" =
        some (PyVal.dict
          (pyDictMerge [("label", PyVal.str (pyStr n))]
            (dataEntry (pyDictMerge nd attrs0))))) ∧
    nxEdgeDict pyStr ed eattrs u v =
      pyDictMerge
        [("id", PyVal.str ("e" ++ pyStr u ++ "-" ++ pyStr v)),
          ("source", PyVal.str (pyStr u)), ("target", PyVal.str (pyStr v))]
        (pyDictMerge ed eattrs) := by
  refine ⟨?_, ?_, ⟨?_, ?_⟩, rfl⟩
  · intro k vv hv
    exact get_merge_of_get _ _ _ _ hnodup hv
  · intro k hk
    exact get_merge_of_not_contains _ _ _ hk
  · exact nxNodeDict_eq_ok _ _ _ _ _ _ _ hok
  · exact get_nxNodeDictVal_data _ _ _ _ _ _ _

/-- Witness for C7: a node default `style` with a node that has its own
`data` payload, and one edge. -/
theorem C7_importer_merge_semantics_witness :
    pyDictNodup [("data", PyVal.dict [("label", PyVal.str "L")])] ∧
      dataEntryOk
        (pyDictMerge [("style", PyVal.str "s")]
          [("data", PyVal.dict [("label", PyVal.str "L")])]) = true ∧
      pyDictGet
          (nxNodeDictVal (fun s : String => s) 400 [("style", PyVal.str "s")]
            [("data", PyVal.dict [("label", PyVal.str "L")])] "n" 0 0)
          "data" =
        some (PyVal.dict
          (pyDictMerge [("label", PyVal.str "n")]
            (dataEntry
              (pyDictMerge [("style", PyVal.str "s")]
                [("data", PyVal.dict [("label", PyVal.str "L")])])))) :=
  ⟨by show (List.map Prod.fst _).Nodup; decide, rfl,
    ((C7_importer_merge_semantics (fun s : String => s) 400
          [("style", PyVal.str "s")]
          [("data", PyVal.dict [("label", PyVal.str "L")])] [] [] "n" 0 0
          "a" "b" (by show (List.map Prod.fst _).Nodup; decide) rfl).2.2.1).2⟩

/-- A concrete node-attribute dict that overrides the protected-looking
keys "id" and "position". -/
def overrideAttrs : PyDict :=
  [("id", PyVal.str "forced"), ("position", PyVal.str "forcedpos")]

/-- C9: `from_networkx` applies the merged attributes last over the
computed wire mapping, so no key is protected: a merged node attribute
"id" or "position" replaces the stringified identifier or the scaled
layout coordinate, and a merged edge attribute "id", "source" or "target"
replaces the synthesized identifier or the stringified endpoints. -/
theorem C9_attrs_override_computed_keys {α : Type} (pyStr : α → String)
    (scale : ℚ) (nd attrs0 ed eattrs : PyDict) (n : α) (x y : ℚ) (u v : α)
    (hnd : pyDictNodup (pyDictMerge nd attrs0))
    (hed : pyDictNodup (pyDictMerge ed eattrs)) :
    (∀ out idv, nxNodeDict pyStr scale nd attrs0 n x y = Except.ok out →
      pyDictGet (pyDictMerge nd attrs0) "id" = some idv →
      pyDictGet out "id" = some idv) ∧
    (∀ out pv, nxNodeDict pyStr scale nd attrs0 n x y = Except.ok out →
      pyDictGet (pyDictMerge nd attrs0) "position" = some pv →
      pyDictGet out "position" = some pv) ∧
    (∀ k kv, k = "id" ∨ k = "source" ∨ k = "target" →
      pyDictGet (pyDictMerge ed eattrs) k = some kv →
      pyDictGet (nxEdgeDict pyStr ed eattrs u v) k = some kv) := by
  refine ⟨?_, ?_, ?_⟩
  · intro out idv hout hv
    rw [nxNodeDict_ok_inv _ _ _ _ _ _ _ _ hout]
    exact get_nxNodeDictVal_of_attr _ _ _ _ _ _ _ _ _ hnd (by decide) hv
  · intro out pv hout hv
    rw [nxNodeDict_ok_inv _ _ _ _ _ _ _ _ hout]
    exact get_nxNodeDictVal_of_attr _ _ _ _ _ _ _ _ _ hnd (by decide) hv
  · intro k kv _ hv
    unfold nxEdgeDict
    exact get_merge_of_get _ _ _ _ hed hv

/-- Witness for C9: a node whose attributes force "id" and "position" and
an edge whose attributes force "id". -/
theorem C9_attrs_override_computed_keys_witness :
    pyDictNodup (pyDictMerge [] overrideAttrs) ∧
      pyDictNodup (pyDictMerge [] [("id", PyVal.str "eid")]) ∧
      pyDictGet
          (nxNodeDictVal (fun s : String => s) 400 [] overrideAttrs "n" 0 0)
          "id" = some (PyVal.str "forced") ∧
      pyDictGet
          (nxEdgeDict (fun s : String => s) [] [("id", PyVal.str "eid")]
            "a" "b") "id" = some (PyVal.str "eid") :=
  ⟨by show (List.map Prod.fst _).Nodup; decide,
    by show (List.map Prod.fst _).Nodup; decide,
    (C9_attrs_override_computed_keys (fun s : String => s) 400 []
          overrideAttrs [] [("id", PyVal.str "eid")] "n" 0 0 "a" "b"
          (by show (List.map Prod.fst _).Nodup; decide)
          (by show (List.map Prod.fst _).Nodup; decide)).1
      (nxNodeDictVal (fun s : String => s) 400 [] overrideAttrs "n" 0 0)
      (PyVal.str "forced") rfl rfl,
    (C9_attrs_override_computed_keys (fun s : String => s) 400 []
          overrideAttrs [] [("id", PyVal.str "eid")] "n" 0 0 "a" "b"
          (by show (List.map Prod.fst _).Nodup; decide)
          (by show (List.map Prod.fst _).Nodup; decide)).2.2
      "id" (PyVal.str "eid") (Or.inl rfl) rfl⟩
